import Mathlib

/-!
Shallow embedding of the core of the `peek-rs` repository:
the typed relational result decoder and schema introspector
(`src/db/src/postgres.rs`) and the tool-augmented streaming conversation
engine (`src/ai/src/lib.rs`), together with theorems deciding the frozen
claims about them.
-/

set_option linter.unusedVariables false

/-- Model of `serde_json::Value`. -/
inductive JsonValue where
  | null
  | bool (b : Bool)
  | num (n : Int)
  | str (s : String)
  | arr (elems : List JsonValue)
  | obj (fields : List (String × JsonValue))
deriving Repr, Inhabited

/-- Hexadecimal digit character, as produced by serde's `\u00XX` escapes. -/
def hexDigit (n : Nat) : Char :=
  if n < 10 then Char.ofNat (48 + n) else Char.ofNat (87 + (n - 10))

/-- Escape of a single character inside a JSON string literal
(model of `serde_json`'s string escaping). -/
def escapeJsonChar (c : Char) : String :=
  if c = '"' then "\\\""
  else if c = '\\' then "\\\\"
  else if c = '\n' then "\\n"
  else if c = '\r' then "\\r"
  else if c = '\t' then "\\t"
  else if c.toNat = 8 then "\\b"
  else if c.toNat = 12 then "\\f"
  else if c.toNat < 32 then
    "\\u" ++ String.mk [hexDigit (c.toNat / 4096 % 16), hexDigit (c.toNat / 256 % 16),
                        hexDigit (c.toNat / 16 % 16), hexDigit (c.toNat % 16)]
  else String.singleton c

/-- A JSON string literal with quotes (model of `serde_json` string output). -/
def jsonQuote (s : String) : String :=
  "\"" ++ String.join (s.toList.map escapeJsonChar) ++ "\""

/-- Lexicographic order on code-point lists (UTF-8 byte order and
code-point order agree), modelling Rust's `Ord` on `String`. -/
def charListLt : List Char → List Char → Bool
  | [], [] => false
  | [], _ :: _ => true
  | _ :: _, [] => false
  | a :: as, b :: bs =>
    if a.toNat < b.toNat then true
    else if a.toNat = b.toNat then charListLt as bs
    else false

/-- Rust's `Ord` comparison on strings. -/
def strLt (a b : String) : Bool :=
  charListLt a.toList b.toList

/-- Insertion into a key-sorted field list (model of `serde_json::Map`,
which is a `BTreeMap` ordered by key under default features). -/
def insertByKey (f : String × String) : List (String × String) → List (String × String)
  | [] => [f]
  | g :: rest => if strLt f.1 g.1 then f :: g :: rest else g :: insertByKey f rest

/-- Key-sorting of an object's fields (model of building a `serde_json::Map`
from the `json!` macro's field list; keys here are always distinct). -/
def sortByKey (fs : List (String × String)) : List (String × String) :=
  fs.foldr insertByKey []

/-- Model of `serde_json::json!({...}).to_string()` for an object whose
values are strings: fields are key-sorted (`BTreeMap`) and rendered with
JSON string escaping. -/
def jsonObjToString (fields : List (String × String)) : String :=
  "\x7b" ++
    String.intercalate ","
      ((sortByKey fields).map (fun f => jsonQuote f.1 ++ ":" ++ jsonQuote f.2)) ++
  "\x7d"

/-- UTF-8 decoding of a byte list, fuelled (fuel is the list length at the
top call; every step consumes at least one byte). Model of
`std::str::from_utf8`, including continuation-byte, overlong-encoding and
surrogate checks. -/
def utf8DecodeAux : Nat → List Nat → Option (List Char)
  | _, [] => some []
  | 0, _ :: _ => none
  | fuel + 1, b :: rest =>
    if b < 0x80 then
      (utf8DecodeAux fuel rest).map (fun cs => Char.ofNat b :: cs)
    else if 0xC2 ≤ b && b ≤ 0xDF then
      match rest with
      | b1 :: rest' =>
        if 0x80 ≤ b1 && b1 ≤ 0xBF then
          (utf8DecodeAux fuel rest').map
            (fun cs => Char.ofNat ((b - 0xC0) * 0x40 + (b1 - 0x80)) :: cs)
        else none
      | [] => none
    else if 0xE0 ≤ b && b ≤ 0xEF then
      match rest with
      | b1 :: b2 :: rest' =>
        let lo1 : Nat := if b = 0xE0 then 0xA0 else 0x80
        let hi1 : Nat := if b = 0xED then 0x9F else 0xBF
        if (lo1 ≤ b1 && b1 ≤ hi1) && (0x80 ≤ b2 && b2 ≤ 0xBF) then
          (utf8DecodeAux fuel rest').map
            (fun cs =>
              Char.ofNat ((b - 0xE0) * 0x1000 + (b1 - 0x80) * 0x40 + (b2 - 0x80)) :: cs)
        else none
      | _ => none
    else if 0xF0 ≤ b && b ≤ 0xF4 then
      match rest with
      | b1 :: b2 :: b3 :: rest' =>
        let lo1 : Nat := if b = 0xF0 then 0x90 else 0x80
        let hi1 : Nat := if b = 0xF4 then 0x8F else 0xBF
        if (lo1 ≤ b1 && b1 ≤ hi1) && (0x80 ≤ b2 && b2 ≤ 0xBF) && (0x80 ≤ b3 && b3 ≤ 0xBF) then
          (utf8DecodeAux fuel rest').map
            (fun cs =>
              Char.ofNat ((b - 0xF0) * 0x40000 + (b1 - 0x80) * 0x1000 +
                          (b2 - 0x80) * 0x40 + (b3 - 0x80)) :: cs)
        else none
      | _ => none
    else none

/-- Model of `std::str::from_utf8`: `some` of the decoded string on valid
UTF-8 input, `none` otherwise. -/
def utf8Decode? (bytes : List Nat) : Option String :=
  (utf8DecodeAux bytes.length bytes).map String.mk

namespace Db

/-- Two-digit zero padding, as in chrono's `%m`, `%d`, `%H`, `%M`, `%S`. -/
def pad2 (n : Nat) : String :=
  if n < 10 then "0" ++ toString n else toString n

/-- Four-digit zero padding for years, as in chrono's `%Y`. -/
def pad4 (n : Int) : String :=
  if n < 0 then "-" ++ toString (-n)
  else if n < 10 then "000" ++ toString n
  else if n < 100 then "00" ++ toString n
  else if n < 1000 then "0" ++ toString n
  else toString n

/-- Model of `chrono::NaiveDate`. -/
structure NaiveDate where
  year : Int
  month : Nat
  day : Nat
deriving Repr, DecidableEq

/-- Model of `NaiveDate::format("%Y-%m-%d").to_string()`. -/
def NaiveDate.formatYMD (d : NaiveDate) : String :=
  pad4 d.year ++ "-" ++ pad2 d.month ++ "-" ++ pad2 d.day

/-- Model of `chrono::NaiveDateTime`. -/
structure NaiveDateTime where
  date : NaiveDate
  hour : Nat
  minute : Nat
  second : Nat
deriving Repr, DecidableEq

/-- Model of `NaiveDateTime::format("%Y-%m-%dT%H:%M:%S").to_string()`. -/
def NaiveDateTime.formatISO (dt : NaiveDateTime) : String :=
  dt.date.formatYMD ++ "T" ++ pad2 dt.hour ++ ":" ++ pad2 dt.minute ++ ":" ++ pad2 dt.second

/-- Model of `chrono::DateTime<chrono::Utc>::to_rfc3339()`. -/
def NaiveDateTime.toRfc3339 (dt : NaiveDateTime) : String :=
  dt.formatISO ++ "+00:00"

/-- One raw result cell, as the sqlx row interface exposes it: each typed
`row.try_get::<T, _>(i)` is modelled by the corresponding `Option` field
(`none` = that typed read fails, e.g. SQL NULL or a type mismatch), and
`raw.as_bytes()` of `row.try_get_raw(i)` by `as_bytes` (`none` = the raw
bytes are not readable, e.g. SQL NULL). -/
structure Cell where
  uuidRead : Option String
  textRead : Option String
  dateRead : Option NaiveDate
  tsRead : Option NaiveDateTime
  tstzRead : Option NaiveDateTime
  i16Read : Option Int
  i32Read : Option Int
  i64Read : Option Int
  decRead : Option String
  jsonRead : Option JsonValue
  boolRead : Option Bool
  as_bytes : Option (List Nat)
deriving Repr

/-- A cell on which every typed read fails and whose raw bytes are
unreadable: the fully-NULL cell. -/
def Cell.nullCell : Cell :=
  ⟨none, none, none, none, none, none, none, none, none, none, none, none⟩

/-- A result column, as sqlx's `Column` exposes it: `col.name()` and
`col.type_info().name()`. -/
structure Column where
  name : String
  type_name : String
deriving Repr, DecidableEq

/-- One fetched row: its column metadata (`row.columns()`) and its cells
(indexed by `try_get`/`try_get_raw`). -/
structure PgRow where
  columns : List Column
  cells : List Cell
deriving Repr

/-- Model of `row.try_get::<T, _>(i)` for the typed read `read`: fails when
the index is out of bounds or the typed read itself fails. -/
def PgRow.try_get (row : PgRow) (i : Nat) (read : Cell → Option α) : Option α :=
  (row.cells[i]?).bind read

/-- Model of `row.try_get_raw(i)`: fails exactly when the index is out of
bounds. -/
def PgRow.try_get_raw (row : PgRow) (i : Nat) : Option Cell :=
  row.cells[i]?

/-- Model of `DatabaseResult` from `src/db/src/lib.rs`. -/
structure DatabaseResult where
  headers : List (String × String)
  rows : List (List JsonValue)
deriving Repr

/-- The per-cell decoding `match type_name { ... }` of `get_results`
(`src/db/src/postgres.rs` lines 50–114): each recognized tag's typed read
is mapped into a `serde_json::Value` and defaults to `Null` on failure
(`.unwrap_or(Value::Null)`); the default arm reads the raw bytes —
propagating a `try_get_raw` error with `map_err(|_| "".to_string())?` —
and reconstructs a UTF-8 string, falling back to `Null`. -/
def decodeCellAt (row : PgRow) (i : Nat) (type_name : String) : Except String JsonValue :=
  match type_name with
  | "UUID" =>
      .ok (((row.try_get i Cell.uuidRead).map (fun v => JsonValue.str v)).getD JsonValue.null)
  | "TEXT" | "VARCHAR" | "CHAR" =>
      .ok (((row.try_get i Cell.textRead).map (fun v => JsonValue.str v)).getD JsonValue.null)
  | "DATE" =>
      .ok (((row.try_get i Cell.dateRead).map
              (fun v => JsonValue.str v.formatYMD)).getD JsonValue.null)
  | "TIMESTAMP" =>
      .ok (((row.try_get i Cell.tsRead).map
              (fun dt => JsonValue.str dt.formatISO)).getD JsonValue.null)
  | "TIMESTAMPTZ" =>
      .ok (((row.try_get i Cell.tstzRead).map
              (fun dt => JsonValue.str dt.toRfc3339)).getD JsonValue.null)
  | "INT2" =>
      .ok (((row.try_get i Cell.i16Read).map (fun v => JsonValue.num v)).getD JsonValue.null)
  | "INT4" =>
      .ok (((row.try_get i Cell.i32Read).map (fun v => JsonValue.num v)).getD JsonValue.null)
  | "INT8" =>
      .ok (((row.try_get i Cell.i64Read).map (fun v => JsonValue.num v)).getD JsonValue.null)
  | "FLOAT4" | "FLOAT8" | "NUMERIC" =>
      .ok (((row.try_get i Cell.decRead).map (fun v => JsonValue.str v)).getD JsonValue.null)
  | "JSON" | "JSONB" =>
      .ok ((row.try_get i Cell.jsonRead).getD JsonValue.null)
  | "BOOL" =>
      .ok (((row.try_get i Cell.boolRead).map (fun v => JsonValue.bool v)).getD JsonValue.null)
  | _ =>
      match row.try_get_raw i with
      | none => .error ""
      | some raw =>
        .ok (match raw.as_bytes with
             | some bytes =>
               match utf8Decode? bytes with
               | some s => JsonValue.str s
               | none => JsonValue.null
             | none => JsonValue.null)

/-- The inner `for (i, col) in row.columns().iter().enumerate()` loop of
`get_results`, building one decoded row; `i` is the running enumeration
index. -/
def decodeRowAux (row : PgRow) (i : Nat) : List Column → Except String (List JsonValue)
  | [] => .ok []
  | col :: rest =>
    match decodeCellAt row i col.type_name with
    | .error e => .error e
    | .ok v =>
      match decodeRowAux row (i + 1) rest with
      | .error e => .error e
      | .ok vs => .ok (v :: vs)

/-- One decoded row of `get_results`. -/
def decodeRow (row : PgRow) : Except String (List JsonValue) :=
  decodeRowAux row 0 row.columns

/-- The outer `for row in rows` loop of `get_results`. -/
def decodeRows : List PgRow → Except String (List (List JsonValue))
  | [] => .ok []
  | row :: rest =>
    match decodeRow row with
    | .error e => .error e
    | .ok vs =>
      match decodeRows rest with
      | .error e => .error e
      | .ok rs => .ok (vs :: rs)

/-- Model of `get_results` (`src/db/src/postgres.rs` lines 21–123): the
argument is the outcome of `sqlx::query(query).fetch_all(...)` (the
query-executing collaborator). Headers come from the first row's columns;
an empty row set returns early with empty headers and rows; every row is
then decoded cell by cell. -/
def get_results (fetched : Except String (List PgRow)) : Except String DatabaseResult :=
  match fetched with
  | .error e => .error e
  | .ok rows =>
    match rows.head? with
    | none => .ok ⟨[], []⟩
    | some first =>
      let headers := first.columns.map (fun col => (col.name, col.type_name))
      match decodeRows rows with
      | .error e => .error e
      | .ok decoded => .ok ⟨headers, decoded⟩

/-- The default arm of the per-cell decoding match, as its own function:
read the raw bytes — propagating a `try_get_raw` failure as an (empty)
error — and reconstruct a UTF-8 string, falling back to `Null`. -/
def decodeRawDefault (row : PgRow) (i : Nat) : Except String JsonValue :=
  match row.try_get_raw i with
  | none => .error ""
  | some raw =>
    .ok (match raw.as_bytes with
         | some bytes =>
           match utf8Decode? bytes with
           | some s => JsonValue.str s
           | none => JsonValue.null
         | none => JsonValue.null)

/-- The column metadata shared by a result set: the first row's columns
(sqlx rows of one statement share their column metadata). -/
def firstColumns (rows : List PgRow) : List Column :=
  ((rows.head?).map PgRow.columns).getD []

/-- Well-formedness delivered by sqlx: every row holds exactly one cell
per column of its metadata. -/
def cellsMatchColumns (rows : List PgRow) : Bool :=
  rows.all (fun r => decide (r.cells.length = r.columns.length))

/-- Well-formedness delivered by sqlx: all rows of one result set share
the same column metadata. -/
def columnsUniform (rows : List PgRow) : Bool :=
  rows.all (fun r => decide (r.columns = firstColumns rows))

/-- A cell on which decoding can only fail: every typed read fails, and
the raw bytes are unreadable or are not valid UTF-8. -/
def cellUndecodable (cell : Cell) : Bool :=
  cell.uuidRead.isNone &&
  (cell.textRead.isNone &&
  (cell.dateRead.isNone &&
  (cell.tsRead.isNone &&
  (cell.tstzRead.isNone &&
  (cell.i16Read.isNone &&
  (cell.i32Read.isNone &&
  (cell.i64Read.isNone &&
  (cell.decRead.isNone &&
  (cell.jsonRead.isNone &&
  (cell.boolRead.isNone &&
  (match cell.as_bytes with
   | none => true
   | some bytes => (utf8Decode? bytes).isNone)))))))))))

/-- Model of `execute` (`src/db/src/postgres.rs` lines 125–132): the
argument is the outcome of `sqlx::query(query).execute(...)`, carrying the
affected-row count on success; the error is propagated by `?` and success
is always reported as `"ok"`. -/
def execute (outcome : Except String Nat) : Except String String :=
  match outcome with
  | .error e => .error e
  | .ok _ => .ok "ok"

/-- `entry(k).or_default().push(v)` on a `HashMap<String, Vec<α>>`,
modelled on an association list: the value is appended to an existing
key's vector in place, otherwise a fresh singleton entry is created. -/
def pushEntry (m : List (String × List α)) (k : String) (v : α) : List (String × List α) :=
  match m with
  | [] => [(k, [v])]
  | (k', vs) :: rest =>
    if k' = k then (k', vs ++ [v]) :: rest else (k', vs) :: pushEntry rest k v

/-- Association-list lookup, modelling `HashMap` indexing. -/
def alistLookup (m : List (String × List α)) (key : String) : Option (List α) :=
  match m with
  | [] => none
  | (k, vs) :: rest => if k = key then some vs else alistLookup rest key

/-- One tuple of the foreign-key enumeration query of `get_schema`. -/
structure FkRow where
  referencing_table : String
  referencing_column : String
  referenced_table : String
  referenced_column : String
deriving Repr, DecidableEq

/-- The `"{}.{}"` key for the referenced side of a foreign key. -/
def FkRow.referenced_key (row : FkRow) : String :=
  row.referenced_table ++ "." ++ row.referenced_column

/-- The `"{}.{}"` key for the referencing side of a foreign key. -/
def FkRow.referencing_key (row : FkRow) : String :=
  row.referencing_table ++ "." ++ row.referencing_column

/-- The `for row in fk_rows` aggregation loop of `get_schema`
(`src/db/src/postgres.rs` lines 212–227): each foreign-key tuple is
inverted and pushed under its referenced `"table.column"` key. -/
def fkMapOf (fk_rows : List FkRow) : List (String × List String) :=
  fk_rows.foldl
    (fun fk_map row => pushEntry fk_map row.referenced_key row.referencing_key) []

/-- The column aggregation loop of `get_schema`: columns are grouped per
table, preserving arrival order. -/
def schemaMapOf (column_map : List (String × String × String)) :
    List (String × List (String × String)) :=
  column_map.foldl
    (fun schema_map c => pushEntry schema_map c.1 (c.2.1, c.2.2)) []

/-- Model of `get_schema` (`src/db/src/postgres.rs` lines 134–230): the two
arguments are the outcomes of the column-enumeration and foreign-key
catalog queries; either failure is fatal, otherwise the two grouped maps
are returned. -/
def get_schema (columns_fetch : Except String (List (String × String × String)))
    (fk_fetch : Except String (List FkRow)) :
    Except String ((List (String × List (String × String))) × List (String × List String)) :=
  match columns_fetch with
  | .error _ => .error "Could not get columns"
  | .ok column_map =>
    match fk_fetch with
    | .error _ => .error "Could not get foreign key info"
    | .ok fk_rows => .ok (schemaMapOf column_map, fkMapOf fk_rows)

end Db

namespace Ai

/-- Model of `mistralrs::TextMessageRole` (the roles this crate uses). -/
inductive TextMessageRole where
  | System
  | User
  | Assistant
  | Tool
deriving Repr, DecidableEq

/-- Model of `mistralrs::ToolType`. -/
inductive ToolType where
  | Function
deriving Repr, DecidableEq

/-- Model of `mistralrs::Function`: a tool's function declaration. -/
structure ToolFunction where
  name : String
  description : Option String
  parameters : Option (List (String × JsonValue))
deriving Repr

/-- Model of `mistralrs::Tool`. -/
structure Tool where
  tp : ToolType
  function : ToolFunction
deriving Repr

/-- Model of `mistralrs::ToolChoice` (only `Auto` is used by this crate). -/
inductive ToolChoice where
  | Auto
  | NoTools
deriving Repr, DecidableEq

/-- Model of `mistralrs::RequestBuilder`. -/
structure RequestBuilder where
  messages : List (TextMessageRole × String)
  tools : List Tool
  tool_choice : Option ToolChoice
deriving Repr

/-- `RequestBuilder::new()`. -/
def RequestBuilder.new : RequestBuilder :=
  ⟨[], [], none⟩

/-- `builder.add_message(role, content)`: appends one role-tagged message. -/
def RequestBuilder.add_message (b : RequestBuilder) (role : TextMessageRole)
    (content : String) : RequestBuilder :=
  { b with messages := b.messages ++ [(role, content)] }

/-- `builder.set_tools(tools)`. -/
def RequestBuilder.set_tools (b : RequestBuilder) (tools : List Tool) : RequestBuilder :=
  { b with tools := tools }

/-- `builder.set_tool_choice(choice)`. -/
def RequestBuilder.set_tool_choice (b : RequestBuilder) (choice : ToolChoice) :
    RequestBuilder :=
  { b with tool_choice := some choice }

/-- `ToolCallInfo` from `src/ai/src/lib.rs`. -/
structure ToolCallInfo where
  id : String
  name : String
  arguments : String
deriving Repr, DecidableEq

/-- The function part of a streamed tool-call delta
(`call.function.name`, `call.function.arguments`). -/
structure CalledFunction where
  name : String
  arguments : String
deriving Repr, DecidableEq

/-- One streamed tool-call delta (`choice.delta.tool_calls` element). -/
structure DeltaToolCall where
  id : String
  function : CalledFunction
deriving Repr, DecidableEq

/-- A streamed delta: optional text content and optional tool-call list. -/
structure Delta where
  content : Option String
  tool_calls : Option (List DeltaToolCall)
deriving Repr

/-- One choice of a streamed chunk. -/
structure Choice where
  delta : Delta
deriving Repr

/-- The payload of `Response::Chunk`. -/
structure ChunkResponse where
  choices : List Choice
deriving Repr

/-- Model of `mistralrs::Response` as consumed by this crate: only the
`Chunk` variant is inspected; every other variant is ignored by the loop. -/
inductive Response where
  | Chunk (response : ChunkResponse)
  | Other
deriving Repr

/-- `StreamChunk` from `src/ai/src/lib.rs`. -/
inductive StreamChunk where
  | Text (content : String)
  | ToolCall (info : ToolCallInfo)
deriving Repr, DecidableEq

/-- The session state of `LLM`: its turn history and tool registry (the
model handle is the streaming collaborator, passed to each operation as a
function). -/
structure LLM where
  history : List (TextMessageRole × String)
  tools : List Tool
deriving Repr

/-- One iteration of the `while let Some(chunk) = stream.next()` loop of
`stream_completion` (`src/ai/src/lib.rs` lines 100–121), acting on the
accumulator state `(full_response, tool_calls, emitted events)`; the calls
to `on_chunk` are recorded as the emitted event list, in order. -/
def scStep (st : String × List ToolCallInfo × List StreamChunk) (chunk : Response) :
    String × List ToolCallInfo × List StreamChunk :=
  match chunk with
  | .Other => st
  | .Chunk chunk_response =>
    let st :=
      match chunk_response.choices.head? with
      | some choice =>
        match choice.delta.content with
        | some content => (st.1 ++ content, st.2.1, st.2.2 ++ [StreamChunk.Text content])
        | none => st
      | none => st
    match chunk_response.choices.head? with
    | some choice =>
      match choice.delta.tool_calls with
      | some tool =>
        match tool.head? with
        | some call =>
          let tool_call_info : ToolCallInfo :=
            ⟨call.id, call.function.name, call.function.arguments⟩
          (st.1, st.2.1 ++ [tool_call_info], st.2.2 ++ [StreamChunk.ToolCall tool_call_info])
        | none => st
      | none => st
    | none => st

/-- The request construction of `stream_completion` (`src/ai/src/lib.rs`
lines 76–89): a fold of `add_message` over the history, then the tool
schema and automatic tool choice when the registry is non-empty. -/
def buildRequestSC (history : List (TextMessageRole × String)) (tools : List Tool) :
    RequestBuilder :=
  let request_builder :=
    history.foldl (fun builder rc => builder.add_message rc.1 rc.2) RequestBuilder.new
  if !tools.isEmpty then
    (request_builder.set_tools tools).set_tool_choice ToolChoice.Auto
  else request_builder

/-- Model of `LLM::stream_completion` (`src/ai/src/lib.rs` lines 64–127).
The streaming collaborator `stream_chat_request` stands for
`self.model.stream_chat_request(...)`: it maps the built request to either
an error or the full chunk sequence of the stream. The result is the new
session state, the returned tool-call list or error, and the events
delivered to `on_chunk` in order. -/
def streamCompletion (llm : LLM) (prompt : String)
    (stream_chat_request : RequestBuilder → Except String (List Response)) :
    LLM × Except String (List ToolCallInfo) × List StreamChunk :=
  let history := llm.history ++ [(TextMessageRole.User, prompt)]
  let request_builder := buildRequestSC history llm.tools
  match stream_chat_request request_builder with
  | .error e => ({ llm with history := history }, .error e, [])
  | .ok chunks =>
    let st := chunks.foldl scStep ("", [], [])
    ({ llm with history := history ++ [(TextMessageRole.Assistant, st.1)] },
     .ok st.2.1, st.2.2)

/-- One iteration of the stream loop of `add_tool_result`
(`src/ai/src/lib.rs` lines 173–194); the source duplicates the loop of
`stream_completion` verbatim. -/
def atrStep (st : String × List ToolCallInfo × List StreamChunk) (chunk : Response) :
    String × List ToolCallInfo × List StreamChunk :=
  match chunk with
  | .Other => st
  | .Chunk chunk_response =>
    let st :=
      match chunk_response.choices.head? with
      | some choice =>
        match choice.delta.content with
        | some content => (st.1 ++ content, st.2.1, st.2.2 ++ [StreamChunk.Text content])
        | none => st
      | none => st
    match chunk_response.choices.head? with
    | some choice =>
      match choice.delta.tool_calls with
      | some tool =>
        match tool.head? with
        | some call =>
          let tool_call_info : ToolCallInfo :=
            ⟨call.id, call.function.name, call.function.arguments⟩
          (st.1, st.2.1 ++ [tool_call_info], st.2.2 ++ [StreamChunk.ToolCall tool_call_info])
        | none => st
      | none => st
    | none => st

/-- The request construction of `add_tool_result` (`src/ai/src/lib.rs`
lines 151–162); the source duplicates the construction of
`stream_completion` verbatim. -/
def buildRequestATR (history : List (TextMessageRole × String)) (tools : List Tool) :
    RequestBuilder :=
  let request_builder :=
    history.foldl (fun builder rc => builder.add_message rc.1 rc.2) RequestBuilder.new
  if !tools.isEmpty then
    (request_builder.set_tools tools).set_tool_choice ToolChoice.Auto
  else request_builder

/-- The content serialized into the tool-result turn:
`serde_json::json!({"tool_call_id": ..., "content": ...}).to_string()`. -/
def toolResultContent (tool_call_id : String) (result : String) : String :=
  jsonObjToString [("tool_call_id", tool_call_id), ("content", result)]

/-- Model of `LLM::add_tool_result` (`src/ai/src/lib.rs` lines 130–200):
appends a `Tool`-role turn carrying the serialized tool result, then
performs the same request-build/stream/append sequence as
`stream_completion`. -/
def addToolResult (llm : LLM) (tool_call_id : String) (result : String)
    (stream_chat_request : RequestBuilder → Except String (List Response)) :
    LLM × Except String (List ToolCallInfo) × List StreamChunk :=
  let history :=
    llm.history ++ [(TextMessageRole.Tool, toolResultContent tool_call_id result)]
  let request_builder := buildRequestATR history llm.tools
  match stream_chat_request request_builder with
  | .error e => ({ llm with history := history }, .error e, [])
  | .ok chunks =>
    let st := chunks.foldl atrStep ("", [], [])
    ({ llm with history := history ++ [(TextMessageRole.Assistant, st.1)] },
     .ok st.2.1, st.2.2)

/-- Modelled from the spec: "one internal routine taking a turn to append
and returning the same event/result contract" — the common algorithm of
`stream_completion` and `add_tool_result`, parameterized by the turn it
first appends. Defined for the refinement claim comparing the two source
operations against it. -/
def runTurn (llm : LLM) (turn : TextMessageRole × String)
    (stream_chat_request : RequestBuilder → Except String (List Response)) :
    LLM × Except String (List ToolCallInfo) × List StreamChunk :=
  let history := llm.history ++ [turn]
  let request_builder := buildRequestSC history llm.tools
  match stream_chat_request request_builder with
  | .error e => ({ llm with history := history }, .error e, [])
  | .ok chunks =>
    let st := chunks.foldl scStep ("", [], [])
    ({ llm with history := history ++ [(TextMessageRole.Assistant, st.1)] },
     .ok st.2.1, st.2.2)

/-- One call on a session: either `stream_completion` with a prompt or
`add_tool_result` with a tool-call id and result text, each with its
streaming-collaborator behaviour. -/
inductive Call where
  | completion (prompt : String)
      (stream_chat_request : RequestBuilder → Except String (List Response))
  | toolResult (tool_call_id : String) (result : String)
      (stream_chat_request : RequestBuilder → Except String (List Response))

/-- Executing one call on a session. -/
def runCall (llm : LLM) : Call → LLM × Except String (List ToolCallInfo) × List StreamChunk
  | .completion prompt infer => streamCompletion llm prompt infer
  | .toolResult id result infer => addToolResult llm id result infer

/-- Executing a sequence of calls on one session, threading the state. -/
def runCalls (llm : LLM) : List Call → LLM
  | [] => llm
  | c :: rest => runCalls (runCall llm c).1 rest

/-- Whether an operation's outcome is a success. -/
def isOkOutcome : Except String (List ToolCallInfo) → Bool
  | .ok _ => true
  | .error _ => false

/-- Whether every call of the sequence, executed in order, succeeds. -/
def callsOk (llm : LLM) : List Call → Bool
  | [] => true
  | c :: rest => isOkOutcome (runCall llm c).2.1 && callsOk (runCall llm c).1 rest

/-- Concatenation, in order, of the `Text` fragments of an event list. -/
def textConcat : List StreamChunk → String
  | [] => ""
  | .Text s :: rest => s ++ textConcat rest
  | .ToolCall _ :: rest => textConcat rest

end Ai

/-- The fold of `add_message` only appends the history to the builder's
messages. -/
theorem foldl_add_message_messages (history : List (Ai.TextMessageRole × String))
    (b : Ai.RequestBuilder) :
    (history.foldl (fun builder rc => builder.add_message rc.1 rc.2) b).messages
      = b.messages ++ history := by
  induction history generalizing b with
  | nil => simp
  | cons rc rest ih =>
    rw [List.foldl_cons, ih]
    simp [Ai.RequestBuilder.add_message]

/-- The built request carries exactly the history as its messages. -/
theorem buildRequestSC_messages (history : List (Ai.TextMessageRole × String))
    (tools : List Ai.Tool) :
    (Ai.buildRequestSC history tools).messages = history := by
  unfold Ai.buildRequestSC
  split <;>
    simp [Ai.RequestBuilder.set_tool_choice, Ai.RequestBuilder.set_tools,
      foldl_add_message_messages, Ai.RequestBuilder.new]

/-- `buildRequestATR` is the same construction as `buildRequestSC`. -/
theorem buildRequestATR_eq_buildRequestSC : Ai.buildRequestATR = Ai.buildRequestSC := rfl

/-- `textConcat` distributes over event-list concatenation. -/
theorem textConcat_append (a b : List Ai.StreamChunk) :
    Ai.textConcat (a ++ b) = Ai.textConcat a ++ Ai.textConcat b := by
  induction a with
  | nil => simp [Ai.textConcat]
  | cons ev rest ih =>
    cases ev <;> simp [Ai.textConcat, ih, String.append_assoc]

/-- One stream-loop step appends some events and grows the text
accumulator by exactly the concatenation of the appended `Text` events. -/
theorem scStep_events (st : String × List Ai.ToolCallInfo × List Ai.StreamChunk)
    (chunk : Ai.Response) :
    ∃ d, (Ai.scStep st chunk).1 = st.1 ++ Ai.textConcat d ∧
      (Ai.scStep st chunk).2.2 = st.2.2 ++ d := by
  obtain ⟨f, c, e⟩ := st
  cases chunk with
  | Other => exact ⟨[], by simp [Ai.scStep, Ai.textConcat]⟩
  | Chunk cr =>
    cases hchoice : cr.choices.head? with
    | none => exact ⟨[], by simp [Ai.scStep, hchoice, Ai.textConcat]⟩
    | some choice =>
      cases hcontent : choice.delta.content with
      | none =>
        cases htools : choice.delta.tool_calls with
        | none => exact ⟨[], by simp [Ai.scStep, hchoice, hcontent, htools, Ai.textConcat]⟩
        | some tool =>
          cases hcall : tool.head? with
          | none =>
            exact ⟨[], by simp [Ai.scStep, hchoice, hcontent, htools, hcall, Ai.textConcat]⟩
          | some call =>
            exact ⟨[Ai.StreamChunk.ToolCall ⟨call.id, call.function.name,
                      call.function.arguments⟩],
              by simp [Ai.scStep, hchoice, hcontent, htools, hcall, Ai.textConcat]⟩
      | some content =>
        cases htools : choice.delta.tool_calls with
        | none =>
          exact ⟨[Ai.StreamChunk.Text content],
            by simp [Ai.scStep, hchoice, hcontent, htools, Ai.textConcat]⟩
        | some tool =>
          cases hcall : tool.head? with
          | none =>
            exact ⟨[Ai.StreamChunk.Text content],
              by simp [Ai.scStep, hchoice, hcontent, htools, hcall, Ai.textConcat]⟩
          | some call =>
            exact ⟨[Ai.StreamChunk.Text content,
                    Ai.StreamChunk.ToolCall ⟨call.id, call.function.name,
                      call.function.arguments⟩],
              by simp [Ai.scStep, hchoice, hcontent, htools, hcall, Ai.textConcat]⟩

/-- Over a whole stream, the text accumulator grows by exactly the
concatenation of the `Text` events appended to the event list. -/
theorem foldl_scStep_events (chunks : List Ai.Response)
    (st : String × List Ai.ToolCallInfo × List Ai.StreamChunk) :
    ∃ d, (chunks.foldl Ai.scStep st).1 = st.1 ++ Ai.textConcat d ∧
      (chunks.foldl Ai.scStep st).2.2 = st.2.2 ++ d := by
  induction chunks generalizing st with
  | nil => exact ⟨[], by simp [Ai.textConcat]⟩
  | cons chunk rest ih =>
    obtain ⟨d1, h1, h2⟩ := scStep_events st chunk
    obtain ⟨d2, h3, h4⟩ := ih (Ai.scStep st chunk)
    refine ⟨d1 ++ d2, ?_, ?_⟩
    · rw [List.foldl_cons, h3, h1, textConcat_append, String.append_assoc]
    · rw [List.foldl_cons, h4, h2, List.append_assoc]

/-- Each call grows the history by a tail of length exactly 2 when it
succeeds (and by the single request-role turn when it fails). -/
theorem runCall_history (llm : Ai.LLM) (c : Ai.Call) :
    ∃ tail, (Ai.runCall llm c).1.history = llm.history ++ tail ∧
      (Ai.isOkOutcome (Ai.runCall llm c).2.1 = true → tail.length = 2) := by
  cases c with
  | completion prompt infer =>
    cases h : infer (Ai.buildRequestSC
        (llm.history ++ [(Ai.TextMessageRole.User, prompt)]) llm.tools) with
    | error e =>
      refine ⟨[(Ai.TextMessageRole.User, prompt)], ?_, ?_⟩ <;>
        simp [Ai.runCall, Ai.streamCompletion, h, Ai.isOkOutcome]
    | ok chunks =>
      refine ⟨[(Ai.TextMessageRole.User, prompt),
        (Ai.TextMessageRole.Assistant, (chunks.foldl Ai.scStep ("", [], [])).1)], ?_, ?_⟩ <;>
        simp [Ai.runCall, Ai.streamCompletion, h]
  | toolResult id result infer =>
    cases h : infer (Ai.buildRequestATR
        (llm.history ++ [(Ai.TextMessageRole.Tool, Ai.toolResultContent id result)])
        llm.tools) with
    | error e =>
      refine ⟨[(Ai.TextMessageRole.Tool, Ai.toolResultContent id result)], ?_, ?_⟩ <;>
        simp [Ai.runCall, Ai.addToolResult, h, Ai.isOkOutcome]
    | ok chunks =>
      refine ⟨[(Ai.TextMessageRole.Tool, Ai.toolResultContent id result),
        (Ai.TextMessageRole.Assistant, (chunks.foldl Ai.atrStep ("", [], [])).1)], ?_, ?_⟩ <;>
        simp [Ai.runCall, Ai.addToolResult, h]

/-- C10: `execute` maps every successful statement outcome — whatever its
affected-row count — to exactly the string `"ok"`, and propagates the
collaborator's error string otherwise. -/
theorem execute_ok_c10 :
    (∀ rows_affected : Nat, Db.execute (Except.ok rows_affected) = Except.ok "ok") ∧
    (∀ e : String, Db.execute (Except.error e) = Except.error e) :=
  ⟨fun _ => rfl, fun _ => rfl⟩

/-- C9: `stream_completion` and `add_tool_result` are the same algorithm
parameterized by the turn they first append: both coincide — state, built
request, emitted event sequence, appended `Assistant` turn, and returned
tool-call list — with the single internal routine `runTurn` applied to
their respective turns. -/
theorem same_algorithm_c9 :
    (∀ (llm : Ai.LLM) (prompt : String)
        (infer : Ai.RequestBuilder → Except String (List Ai.Response)),
      Ai.streamCompletion llm prompt infer
        = Ai.runTurn llm (Ai.TextMessageRole.User, prompt) infer) ∧
    (∀ (llm : Ai.LLM) (tool_call_id result : String)
        (infer : Ai.RequestBuilder → Except String (List Ai.Response)),
      Ai.addToolResult llm tool_call_id result infer
        = Ai.runTurn llm
            (Ai.TextMessageRole.Tool, Ai.toolResultContent tool_call_id result) infer) :=
  ⟨fun _ _ _ => rfl, fun _ _ _ _ => rfl⟩

/-- C5: when opening the stream fails, `stream_completion` returns exactly
the collaborator's error, the history is the prior history plus the one
`User` turn for the prompt (not rolled back, no `Assistant` turn), the
tool registry is unchanged, and no event is emitted. -/
theorem stream_open_failure_c5 (llm : Ai.LLM) (prompt : String)
    (infer : Ai.RequestBuilder → Except String (List Ai.Response)) (e : String)
    (h : infer (Ai.buildRequestSC
        (llm.history ++ [(Ai.TextMessageRole.User, prompt)]) llm.tools)
      = Except.error e) :
    Ai.streamCompletion llm prompt infer
      = ({ llm with history := llm.history ++ [(Ai.TextMessageRole.User, prompt)] },
         Except.error e, []) := by
  simp [Ai.streamCompletion, h]

/-- Witness for C5 at a concrete session and collaborator. -/
theorem stream_open_failure_c5_witness :
    (fun _ : Ai.RequestBuilder => (Except.error "connection refused" :
        Except String (List Ai.Response)))
      (Ai.buildRequestSC
        ((⟨[], []⟩ : Ai.LLM).history ++ [(Ai.TextMessageRole.User, "hello")])
        (⟨[], []⟩ : Ai.LLM).tools) = Except.error "connection refused" ∧
    Ai.streamCompletion ⟨[], []⟩ "hello"
        (fun _ => Except.error "connection refused")
      = (⟨[(Ai.TextMessageRole.User, "hello")], []⟩,
         Except.error "connection refused", []) :=
  ⟨rfl, stream_open_failure_c5 ⟨[], []⟩ "hello"
    (fun _ => Except.error "connection refused") "connection refused" rfl⟩

/-- C8: `add_tool_result` appends a `Tool`-role turn whose content is
exactly the serialization of the JSON object
`{"tool_call_id": tool_call_id, "content": result}` (keys ordered by the
underlying map), and the request it then streams already carries the prior
history plus exactly that turn; on any outcome the appended turn is
preserved in the session history. -/
theorem tool_result_format_c8 (llm : Ai.LLM) (tool_call_id result : String)
    (infer : Ai.RequestBuilder → Except String (List Ai.Response)) :
    Ai.toolResultContent tool_call_id result
      = jsonObjToString [("tool_call_id", tool_call_id), ("content", result)] ∧
    (Ai.buildRequestATR
        (llm.history ++ [(Ai.TextMessageRole.Tool, Ai.toolResultContent tool_call_id result)])
        llm.tools).messages
      = llm.history ++ [(Ai.TextMessageRole.Tool, Ai.toolResultContent tool_call_id result)] ∧
    (∃ tail, (Ai.addToolResult llm tool_call_id result infer).1.history
      = llm.history ++ [(Ai.TextMessageRole.Tool, Ai.toolResultContent tool_call_id result)]
          ++ tail) ∧
    Ai.toolResultContent "call_1" "42 rows"
      = "\x7b\"content\":\"42 rows\",\"tool_call_id\":\"call_1\"\x7d" := by
  refine ⟨rfl, ?_, ?_, by rfl⟩
  · rw [buildRequestATR_eq_buildRequestSC, buildRequestSC_messages]
  · cases h : infer (Ai.buildRequestATR
        (llm.history ++ [(Ai.TextMessageRole.Tool, Ai.toolResultContent tool_call_id result)])
        llm.tools) with
    | error e => exact ⟨[], by simp [Ai.addToolResult, h]⟩
    | ok chunks =>
      exact ⟨[(Ai.TextMessageRole.Assistant, (chunks.foldl Ai.atrStep ("", [], [])).1)],
        by simp [Ai.addToolResult, h]⟩

/-- C4: on a successful stream, the `Assistant` turn appended for the call
carries exactly the concatenation, in emission order, of the `Text` event
fragments delivered to `on_chunk` (including the empty concatenation when
no `Text` event was emitted). -/
theorem text_events_assistant_c4 (llm : Ai.LLM) (prompt : String)
    (infer : Ai.RequestBuilder → Except String (List Ai.Response))
    (chunks : List Ai.Response)
    (h : infer (Ai.buildRequestSC
        (llm.history ++ [(Ai.TextMessageRole.User, prompt)]) llm.tools)
      = Except.ok chunks) :
    (Ai.streamCompletion llm prompt infer).1.history
      = llm.history ++ [(Ai.TextMessageRole.User, prompt),
          (Ai.TextMessageRole.Assistant,
            Ai.textConcat (Ai.streamCompletion llm prompt infer).2.2)] := by
  obtain ⟨d, h1, h2⟩ := foldl_scStep_events chunks ("", [], [])
  simp only [Ai.streamCompletion, h]
  rw [h1, h2]
  simp

/-- Witness for C4 at a concrete stream carrying two text fragments and a
tool call. -/
theorem text_events_assistant_c4_witness :
    (fun _ : Ai.RequestBuilder => (Except.ok
        [Ai.Response.Chunk ⟨[⟨⟨some "Hel", none⟩⟩]⟩,
         Ai.Response.Chunk ⟨[⟨⟨some "lo", some [⟨"id1", ⟨"run_query", "\x7b\x7d"⟩⟩]⟩⟩]⟩] :
          Except String (List Ai.Response)))
      (Ai.buildRequestSC
        ((⟨[], []⟩ : Ai.LLM).history ++ [(Ai.TextMessageRole.User, "hi")])
        (⟨[], []⟩ : Ai.LLM).tools)
      = Except.ok
        [Ai.Response.Chunk ⟨[⟨⟨some "Hel", none⟩⟩]⟩,
         Ai.Response.Chunk ⟨[⟨⟨some "lo", some [⟨"id1", ⟨"run_query", "\x7b\x7d"⟩⟩]⟩⟩]⟩] ∧
    (Ai.streamCompletion ⟨[], []⟩ "hi"
        (fun _ => Except.ok
          [Ai.Response.Chunk ⟨[⟨⟨some "Hel", none⟩⟩]⟩,
           Ai.Response.Chunk ⟨[⟨⟨some "lo", some [⟨"id1", ⟨"run_query", "\x7b\x7d"⟩⟩]⟩⟩]⟩])).1.history
      = (⟨[], []⟩ : Ai.LLM).history ++ [(Ai.TextMessageRole.User, "hi"),
          (Ai.TextMessageRole.Assistant,
            Ai.textConcat (Ai.streamCompletion ⟨[], []⟩ "hi"
              (fun _ => Except.ok
                [Ai.Response.Chunk ⟨[⟨⟨some "Hel", none⟩⟩]⟩,
                 Ai.Response.Chunk ⟨[⟨⟨some "lo",
                   some [⟨"id1", ⟨"run_query", "\x7b\x7d"⟩⟩]⟩⟩]⟩])).2.2)] :=
  ⟨rfl, text_events_assistant_c4 ⟨[], []⟩ "hi" _ _ rfl⟩

/-- C3: a sequence of successful calls grows the turn history by exactly
two turns per call — one request-role turn and one `Assistant` turn — and
the prior history is preserved unchanged as a prefix (no turn is removed
or rewritten). -/
theorem history_growth_c3 (llm : Ai.LLM) (calls : List Ai.Call)
    (h : Ai.callsOk llm calls = true) :
    (Ai.runCalls llm calls).history.length
      = llm.history.length + 2 * calls.length ∧
    ∃ tail, (Ai.runCalls llm calls).history = llm.history ++ tail := by
  revert h
  induction calls generalizing llm with
  | nil => exact fun _ => ⟨by simp [Ai.runCalls], [], by simp [Ai.runCalls]⟩
  | cons c rest ih =>
    intro h
    rw [Ai.callsOk, Bool.and_eq_true] at h
    obtain ⟨hok, hrest⟩ := h
    obtain ⟨tail, htail, hlen⟩ := runCall_history llm c
    obtain ⟨ihlen, tail2, ihtail⟩ := ih (Ai.runCall llm c).1 hrest
    constructor
    · rw [Ai.runCalls, ihlen, htail]
      simp [List.length_append, hlen hok]
      omega
    · refine ⟨tail ++ tail2, ?_⟩
      rw [Ai.runCalls, ihtail, htail, List.append_assoc]

/-- Witness for C3: two successful calls (one of each kind) on a fresh
session grow the history from 0 to 4 turns. -/
theorem history_growth_c3_witness :
    Ai.callsOk ⟨[], []⟩
      [Ai.Call.completion "hi" (fun _ => Except.ok []),
       Ai.Call.toolResult "id1" "result" (fun _ => Except.ok [])] = true ∧
    ((Ai.runCalls (⟨[], []⟩ : Ai.LLM)
        [Ai.Call.completion "hi" (fun _ => Except.ok []),
         Ai.Call.toolResult "id1" "result" (fun _ => Except.ok [])]).history.length
      = (⟨[], []⟩ : Ai.LLM).history.length + 2 *
          [Ai.Call.completion "hi" (fun _ => Except.ok []),
           Ai.Call.toolResult "id1" "result" (fun _ => Except.ok [])].length ∧
    ∃ tail, (Ai.runCalls (⟨[], []⟩ : Ai.LLM)
        [Ai.Call.completion "hi" (fun _ => Except.ok []),
         Ai.Call.toolResult "id1" "result" (fun _ => Except.ok [])]).history
      = (⟨[], []⟩ : Ai.LLM).history ++ tail) :=
  ⟨rfl, history_growth_c3 ⟨[], []⟩ _ rfl⟩

/-- C2 counterexample: the dispatch on the source type tag is
case-sensitive, not case-insensitive — for the same raw cell, the tag
`"BOOL"` selects the typed boolean branch while `"bool"` falls to the
default raw-bytes branch, and the two decoded values differ. -/
theorem decode_case_c2_counterexample :
    Db.decodeCellAt
        ⟨[⟨"flag", "BOOL"⟩],
         [{ Db.Cell.nullCell with boolRead := some true, as_bytes := some [116] }]⟩
        0 "BOOL" = Except.ok (JsonValue.bool true) ∧
    Db.decodeCellAt
        ⟨[⟨"flag", "bool"⟩],
         [{ Db.Cell.nullCell with boolRead := some true, as_bytes := some [116] }]⟩
        0 "bool" = Except.ok (JsonValue.str "t") ∧
    JsonValue.bool true ≠ JsonValue.str "t" :=
  ⟨rfl, rfl, nofun⟩

/-- C2 amended: the decoding branch is selected by exact, case-sensitive
comparison of the source type tag — the recognized uppercase tags select
their typed branches, while a tag differing only in letter case (e.g.
`"bool"`, `"int4"`) selects the default raw-bytes branch, so two tags
differing only in case may decode the same raw cell differently. -/
theorem decode_dispatch_case_sensitive_c2 (row : Db.PgRow) (i : Nat) :
    Db.decodeCellAt row i "bool" = Db.decodeRawDefault row i ∧
    Db.decodeCellAt row i "int4" = Db.decodeRawDefault row i ∧
    Db.decodeCellAt row i "Bool" = Db.decodeRawDefault row i ∧
    Db.decodeCellAt row i "uuid" = Db.decodeRawDefault row i ∧
    Db.decodeCellAt row i "BOOL"
      = Except.ok (((row.try_get i Db.Cell.boolRead).map
          (fun v => JsonValue.bool v)).getD JsonValue.null) ∧
    Db.decodeCellAt row i "INT4"
      = Except.ok (((row.try_get i Db.Cell.i32Read).map
          (fun v => JsonValue.num v)).getD JsonValue.null) :=
  ⟨rfl, rfl, rfl, rfl, rfl, rfl⟩

/-- Pushing under key `k` appends `v` to the end of `k`'s value list
(creating the entry when absent). -/
theorem alistLookup_pushEntry_eq {α : Type} (m : List (String × List α)) (k : String) (v : α) :
    Db.alistLookup (Db.pushEntry m k v) k
      = some ((Db.alistLookup m k).getD [] ++ [v]) := by
  induction m with
  | nil => simp [Db.pushEntry, Db.alistLookup]
  | cons g rest ih =>
    obtain ⟨k', vs⟩ := g
    by_cases hk : k' = k
    · subst hk
      simp [Db.pushEntry, Db.alistLookup]
    · simp [Db.pushEntry, Db.alistLookup, hk, ih]

/-- Pushing under key `k` leaves every other key's value list unchanged. -/
theorem alistLookup_pushEntry_ne {α : Type} (m : List (String × List α))
    (k key : String) (v : α) (h : key ≠ k) :
    Db.alistLookup (Db.pushEntry m k v) key = Db.alistLookup m key := by
  have h' : ¬k = key := fun he => h he.symm
  induction m with
  | nil => simp [Db.pushEntry, Db.alistLookup, h']
  | cons g rest ih =>
    obtain ⟨k', vs⟩ := g
    by_cases hk : k' = k
    · subst hk
      have : k' ≠ key := fun he => h he.symm
      simp [Db.pushEntry, Db.alistLookup, this]
    · by_cases hkey : k' = key
      · subst hkey
        simp [Db.pushEntry, Db.alistLookup, hk]
      · simp [Db.pushEntry, Db.alistLookup, hk, hkey, ih]

/-- The foreign-key aggregation fold, started from any map: each key's
value list receives the referencing keys of exactly the rows whose
referenced key matches it, in arrival order. -/
theorem fkMap_fold_lookup (rows : List Db.FkRow) (m : List (String × List String))
    (key : String) :
    Db.alistLookup
        (rows.foldl
          (fun fk_map row => Db.pushEntry fk_map row.referenced_key row.referencing_key) m)
        key
      = match Db.alistLookup m key with
        | some vs => some (vs ++
            (rows.filter (fun r => r.referenced_key == key)).map Db.FkRow.referencing_key)
        | none =>
          if ((rows.filter (fun r => r.referenced_key == key)).map
                Db.FkRow.referencing_key).isEmpty
          then none
          else some ((rows.filter (fun r => r.referenced_key == key)).map
                Db.FkRow.referencing_key) := by
  induction rows generalizing m with
  | nil => cases h : Db.alistLookup m key <;> simp [h]
  | cons r rest ih =>
    rw [List.foldl_cons, ih (Db.pushEntry m r.referenced_key r.referencing_key)]
    by_cases hk : r.referenced_key = key
    · subst hk
      rw [alistLookup_pushEntry_eq]
      cases hL : Db.alistLookup m r.referenced_key <;> simp [hL, List.filter_cons]
    · have hne : key ≠ r.referenced_key := fun he => hk he.symm
      rw [alistLookup_pushEntry_ne _ _ _ _ hne]
      have hb : (r.referenced_key == key) = false := by simp [hk]
      simp only [List.filter_cons, hb, Bool.false_eq_true, if_false]

/-- C6: `get_schema` inverts and groups the foreign-key tuples into a
references map keyed by `"referenced_table.referenced_column"`, whose
value lists the `"referencing_table.referencing_column"` strings pointing
at it in arrival order; in particular, for
`orders.customer_id → customers.id` the key `"customers.id"` maps to
exactly `["orders.customer_id"]`. -/
theorem get_schema_references_c6 :
    (∀ (column_map : List (String × String × String)) (fk_rows : List Db.FkRow),
      Db.get_schema (Except.ok column_map) (Except.ok fk_rows)
        = Except.ok (Db.schemaMapOf column_map, Db.fkMapOf fk_rows)) ∧
    (∀ (fk_rows : List Db.FkRow) (key : String),
      Db.alistLookup (Db.fkMapOf fk_rows) key
        = if ((fk_rows.filter (fun r => r.referenced_key == key)).map
                Db.FkRow.referencing_key).isEmpty
          then none
          else some ((fk_rows.filter (fun r => r.referenced_key == key)).map
                Db.FkRow.referencing_key)) ∧
    Db.alistLookup (Db.fkMapOf [⟨"orders", "customer_id", "customers", "id"⟩])
        "customers.id"
      = some ["orders.customer_id"] := by
  refine ⟨fun _ _ => rfl, fun fk_rows key => ?_, by rfl⟩
  have h := fkMap_fold_lookup fk_rows [] key
  simpa [Db.fkMapOf, Db.alistLookup] using h

/-- `cellsMatchColumns` unpacked. -/
theorem cellsMatchColumns_spec (rows : List Db.PgRow)
    (h : Db.cellsMatchColumns rows = true) :
    ∀ r ∈ rows, r.cells.length = r.columns.length := by
  intro r hr
  have := List.all_eq_true.mp h r hr
  simpa using this

/-- `columnsUniform` unpacked. -/
theorem columnsUniform_spec (rows : List Db.PgRow)
    (h : Db.columnsUniform rows = true) :
    ∀ r ∈ rows, r.columns = Db.firstColumns rows := by
  intro r hr
  have := List.all_eq_true.mp h r hr
  simpa using this

/-- Decoding a cell at an in-bounds index never produces an error: every
recognized branch defaults to `Null`, and the default branch's
`try_get_raw` succeeds. -/
theorem decodeCellAt_total (row : Db.PgRow) (i : Nat) (tag : String)
    (h : i < row.cells.length) :
    ∃ v, Db.decodeCellAt row i tag = Except.ok v := by
  have hc : row.try_get_raw i = some row.cells[i] := by
    simp [Db.PgRow.try_get_raw, List.getElem?_eq_getElem h]
  unfold Db.decodeCellAt
  split <;> first
    | exact ⟨_, rfl⟩
    | (rw [hc]; exact ⟨_, rfl⟩)

/-- The enumeration loop decodes one value per column and never errors
when the enumeration stays in bounds of the row's cells. -/
theorem decodeRowAux_total (row : Db.PgRow) (cols : List Db.Column) (i : Nat)
    (h : i + cols.length ≤ row.cells.length) :
    ∃ vs, Db.decodeRowAux row i cols = Except.ok vs ∧ vs.length = cols.length := by
  induction cols generalizing i with
  | nil => exact ⟨[], rfl, rfl⟩
  | cons col rest ih =>
    have hi : i < row.cells.length := by
      simp only [List.length_cons] at h
      omega
    obtain ⟨v, hv⟩ := decodeCellAt_total row i col.type_name hi
    obtain ⟨vs, hvs, hlen⟩ := ih (i + 1) (by simp only [List.length_cons] at h ⊢; omega)
    exact ⟨v :: vs, by simp [Db.decodeRowAux, hv, hvs], by simp [hlen]⟩

/-- The row loop decodes one output row per fetched row and never errors
when every row holds one cell per column. -/
theorem decodeRows_total (rows : List Db.PgRow)
    (h : ∀ r ∈ rows, r.cells.length = r.columns.length) :
    ∃ rss, Db.decodeRows rows = Except.ok rss ∧ rss.length = rows.length ∧
      ∀ vs ∈ rss, ∃ r ∈ rows, vs.length = r.columns.length := by
  induction rows with
  | nil => exact ⟨[], rfl, rfl, by simp⟩
  | cons row rest ih =>
    have h1 : row.cells.length = row.columns.length := h row (by simp)
    obtain ⟨vs, hvs, hlen⟩ := decodeRowAux_total row row.columns 0 (by omega)
    obtain ⟨rss, hrss, hrlen, hmem⟩ := ih (fun r hr => h r (by simp [hr]))
    refine ⟨vs :: rss, ?_, by simp [hrlen], ?_⟩
    · simp [Db.decodeRows, Db.decodeRow, hvs, hrss]
    · intro ws hws
      rcases List.mem_cons.mp hws with rfl | hws'
      · exact ⟨row, by simp, hlen⟩
      · obtain ⟨r, hr, hl⟩ := hmem ws hws'
        exact ⟨r, by simp [hr], hl⟩

/-- A cell on which every read fails decodes to `Null` under every type
tag. -/
theorem decodeCellAt_null_of_undecodable (row : Db.PgRow) (i : Nat) (tag : String)
    (cell : Db.Cell) (hcell : row.cells[i]? = some cell)
    (hu : Db.cellUndecodable cell = true) :
    Db.decodeCellAt row i tag = Except.ok JsonValue.null := by
  simp only [Db.cellUndecodable, Bool.and_eq_true, Option.isNone_iff_eq_none] at hu
  obtain ⟨h1, h2, h3, h4, h5, h6, h7, h8, h9, h10, h11, h12⟩ := hu
  unfold Db.decodeCellAt
  split <;> first
    | simp [Db.PgRow.try_get, hcell, h1, h2, h3, h4, h5, h6, h7, h8, h9, h10, h11]
    | (simp only [Db.PgRow.try_get_raw, hcell]
       cases habs : cell.as_bytes with
       | none => simp
       | some bytes =>
         have hnone : utf8Decode? bytes = none := by
           rw [habs] at h12
           simpa [Option.isNone_iff_eq_none] using h12
         simp [hnone])

/-- C1: decoding is total over cells — given the sqlx row shape (one cell
per column), `get_results` on a fetched row set never returns an error and
returns exactly one decoded row per fetched row; and any cell all of whose
reads fail (a typed read failing even though the tag matched, or raw bytes
that are unreadable or not valid UTF-8) decodes to `Null` under every type
tag, affecting that cell only. -/
theorem decode_total_c1 (rows : List Db.PgRow)
    (hwf : Db.cellsMatchColumns rows = true) :
    (∃ res, Db.get_results (Except.ok rows) = Except.ok res ∧
      res.rows.length = rows.length) ∧
    (∀ (row : Db.PgRow) (i : Nat) (tag : String) (cell : Db.Cell),
      row.cells[i]? = some cell → Db.cellUndecodable cell = true →
      Db.decodeCellAt row i tag = Except.ok JsonValue.null) := by
  refine ⟨?_, fun row i tag cell hcell hu =>
    decodeCellAt_null_of_undecodable row i tag cell hcell hu⟩
  cases rows with
  | nil => exact ⟨⟨[], []⟩, rfl, rfl⟩
  | cons row rest =>
    obtain ⟨rss, hrss, hlen, _⟩ :=
      decodeRows_total (row :: rest) (cellsMatchColumns_spec _ hwf)
    refine ⟨⟨row.columns.map (fun col => (col.name, col.type_name)), rss⟩, ?_, ?_⟩
    · simp [Db.get_results, hrss]
    · simpa using hlen

/-- Witness for C1: a one-row result set whose single cell has an
unrecognized tag and invalid-UTF-8 raw bytes decodes without error. -/
theorem decode_total_c1_witness :
    Db.cellsMatchColumns
      [⟨[⟨"data", "CUSTOM"⟩], [{ Db.Cell.nullCell with as_bytes := some [255] }]⟩]
      = true ∧
    ((∃ res, Db.get_results (Except.ok
        [⟨[⟨"data", "CUSTOM"⟩], [{ Db.Cell.nullCell with as_bytes := some [255] }]⟩])
        = Except.ok res ∧
      res.rows.length =
        [(⟨[⟨"data", "CUSTOM"⟩],
           [{ Db.Cell.nullCell with as_bytes := some [255] }]⟩ : Db.PgRow)].length) ∧
    (∀ (row : Db.PgRow) (i : Nat) (tag : String) (cell : Db.Cell),
      row.cells[i]? = some cell → Db.cellUndecodable cell = true →
      Db.decodeCellAt row i tag = Except.ok JsonValue.null)) :=
  ⟨rfl, decode_total_c1
    [⟨[⟨"data", "CUSTOM"⟩], [{ Db.Cell.nullCell with as_bytes := some [255] }]⟩] rfl⟩

/-- C7: on a successful query, zero fetched rows yield empty headers and
empty rows, while a non-empty row set yields one header per result column
of the first row and every returned row has exactly `headers.length`
cells. -/
theorem get_results_headers_c7 (rows : List Db.PgRow)
    (hcells : Db.cellsMatchColumns rows = true)
    (hcols : Db.columnsUniform rows = true) :
    (rows = [] → Db.get_results (Except.ok rows) = Except.ok ⟨[], []⟩) ∧
    (∀ first rest, rows = first :: rest →
      ∃ res, Db.get_results (Except.ok rows) = Except.ok res ∧
        res.headers.length = first.columns.length ∧
        ∀ r ∈ res.rows, r.length = res.headers.length) := by
  constructor
  · rintro rfl
    rfl
  · rintro first rest rfl
    obtain ⟨rss, hrss, hlen, hmem⟩ :=
      decodeRows_total (first :: rest) (cellsMatchColumns_spec _ hcells)
    refine ⟨⟨first.columns.map (fun col => (col.name, col.type_name)), rss⟩, ?_, by simp, ?_⟩
    · simp [Db.get_results, hrss]
    · intro r hr
      obtain ⟨r', hr', hl⟩ := hmem r hr
      have huni : r'.columns = Db.firstColumns (first :: rest) :=
        columnsUniform_spec _ hcols r' hr'
      have hfc : Db.firstColumns (first :: rest) = first.columns := by
        simp [Db.firstColumns]
      simp [hl, huni, hfc]

/-- Witness for C7: a one-row, two-column result set has two headers and a
two-cell decoded row. -/
theorem get_results_headers_c7_witness :
    Db.cellsMatchColumns
      [⟨[⟨"id", "INT4"⟩, ⟨"name", "TEXT"⟩],
        [{ Db.Cell.nullCell with i32Read := some 1 },
         { Db.Cell.nullCell with textRead := some "a" }]⟩] = true ∧
    Db.columnsUniform
      [⟨[⟨"id", "INT4"⟩, ⟨"name", "TEXT"⟩],
        [{ Db.Cell.nullCell with i32Read := some 1 },
         { Db.Cell.nullCell with textRead := some "a" }]⟩] = true ∧
    (([(⟨[⟨"id", "INT4"⟩, ⟨"name", "TEXT"⟩],
        [{ Db.Cell.nullCell with i32Read := some 1 },
         { Db.Cell.nullCell with textRead := some "a" }]⟩ : Db.PgRow)] = [] →
      Db.get_results (Except.ok
        [⟨[⟨"id", "INT4"⟩, ⟨"name", "TEXT"⟩],
          [{ Db.Cell.nullCell with i32Read := some 1 },
           { Db.Cell.nullCell with textRead := some "a" }]⟩]) = Except.ok ⟨[], []⟩) ∧
    (∀ first rest,
      [(⟨[⟨"id", "INT4"⟩, ⟨"name", "TEXT"⟩],
        [{ Db.Cell.nullCell with i32Read := some 1 },
         { Db.Cell.nullCell with textRead := some "a" }]⟩ : Db.PgRow)] = first :: rest →
      ∃ res, Db.get_results (Except.ok
          [⟨[⟨"id", "INT4"⟩, ⟨"name", "TEXT"⟩],
            [{ Db.Cell.nullCell with i32Read := some 1 },
             { Db.Cell.nullCell with textRead := some "a" }]⟩]) = Except.ok res ∧
        res.headers.length = first.columns.length ∧
        ∀ r ∈ res.rows, r.length = res.headers.length)) :=
  ⟨rfl, rfl, get_results_headers_c7
    [⟨[⟨"id", "INT4"⟩, ⟨"name", "TEXT"⟩],
      [{ Db.Cell.nullCell with i32Read := some 1 },
       { Db.Cell.nullCell with textRead := some "a" }]⟩] rfl rfl⟩
